import Mathlib

/-!
# Verification of the seer bitrate-analysis core

A shallow embedding, in Lean 4, of the concurrency- and arithmetic-relevant
parts of the seer media-inspection backend (src-tauri), together with proofs
of the specification's claims about them:

* `src/bitrate/parser.rs` — aggregation of timestamped frame sizes into
  fixed-width intervals, bitrate statistics with peak detection, and the
  sampling decision tree for very large files;
* `src/media/probe_cache.rs` — the session-scoped ffprobe metadata cache;
* `src/jobs.rs` — the bounded-parallel job queue;
* `src/bitrate/cache.rs` — the content-identity file hash.

Conventions of the embedding: Rust `f64` quantities (timestamps, durations,
intervals) are modelled as exact rationals `ℚ`; `u64`/`usize` quantities as
`Nat`; `as u64` / `as usize` casts of non-negative floats as `Int.floor`
followed by `Int.toNat` (Rust float-to-int casts truncate toward zero and
saturate at zero for negative values, which coincides with
`(Int.floor _).toNat` there). Fallible operations return `Except String`,
and the external world (the ffprobe subprocess, the filesystem, the SHA-256
routine of the `sha2` crate) enters as explicit oracle parameters.
-/

namespace Seer

/-! ## Data model (src/types.rs, src/bitrate/parser.rs)

`FrameRec` is the transient `(f64, u64, Option<String>)` triple produced by
the probe parsers; `BitrateDataPoint`, `PeakInterval` and
`BitrateStatistics` mirror the structs of `src/types.rs`.

The Rust `BitrateStatistics.std_deviation` field holds
`variance.sqrt()` as an `f64`; a square root is not exactly representable,
so the embedded structure stores the radicand `variance` computed exactly,
and the theorems about the standard deviation speak of
`Real.sqrt variance`. -/

structure FrameRec where
  timestamp : ℚ
  size : Nat
  frame_type : Option String
deriving DecidableEq, Repr

structure BitrateDataPoint where
  timestamp : ℚ
  bitrate : Nat
  frame_type : Option String
deriving DecidableEq, Repr

structure PeakInterval where
  start_time : ℚ
  end_time : ℚ
  peak_bitrate : Nat
  duration : ℚ
deriving DecidableEq, Repr

structure BitrateStatistics where
  min_bitrate : Nat
  max_bitrate : Nat
  avg_bitrate : Nat
  median_bitrate : Nat
  /-- Population variance, exactly; the source stores `variance.sqrt()`. -/
  variance : ℚ
  peak_intervals : List PeakInterval
  total_frames : Nat
deriving DecidableEq, Repr

/-! ## Aggregator (`aggregate_bitrate_intervals`, parser.rs lines 493-549) -/

/-- `(duration / interval_seconds).ceil() as usize`. -/
def numIntervals (duration interval_seconds : ℚ) : Nat :=
  (⌈duration / interval_seconds⌉).toNat

/-- `(timestamp / interval_seconds).floor() as usize`: the bucket a frame
is assigned to. -/
def bucketIdx (interval_seconds : ℚ) (timestamp : ℚ) : Nat :=
  (⌊timestamp / interval_seconds⌋).toNat

/-- One step of the frame loop: the `intervals` vector of
`(total_size, count, first_frame_type)` cells is modelled as a function from
the index, and a frame whose bucket index is out of bounds is discarded. -/
def bucketStep (n : Nat) (interval_seconds : ℚ)
    (acc : Nat → Nat × Nat × Option String) (f : FrameRec) :
    Nat → Nat × Nat × Option String :=
  let i := bucketIdx interval_seconds f.timestamp
  if i < n then
    fun k =>
      if k = i then
        ((acc i).1 + f.size, (acc i).2.1 + 1,
          if (acc i).2.2 = none then f.frame_type else (acc i).2.2)
      else acc k
  else acc

/-- The state of the `intervals` vector after the frame loop. -/
def bucketAccum (frames : List FrameRec) (n : Nat) (interval_seconds : ℚ) :
    Nat → Nat × Nat × Option String :=
  frames.foldl (bucketStep n interval_seconds) (fun _ => (0, 0, none))

/-- `((total_size * 8) as f64 / interval_seconds) as u64`. -/
def bucketBitrate (interval_seconds : ℚ) (total_size : Nat) : Nat :=
  (⌊((total_size * 8 : Nat) : ℚ) / interval_seconds⌋).toNat

/-- `aggregate_bitrate_intervals` (parser.rs 493-549): bins frames into
`ceil(duration / interval)` buckets and emits one data point per bucket. -/
def aggregate_bitrate_intervals (frames : List FrameRec)
    (interval_seconds duration : ℚ) : List BitrateDataPoint :=
  if frames = [] then []
  else
    let n := numIntervals duration interval_seconds
    let acc := bucketAccum frames n interval_seconds
    (List.range n).map fun (idx : Nat) =>
      { timestamp := (idx : ℚ) * interval_seconds
        bitrate := bucketBitrate interval_seconds (acc idx).1
        frame_type := (acc idx).2.2 }

/-- Spec-side description of a bucket's byte total: the sum of the sizes of
the frames assigned to bucket `k`. -/
def bucketBytes (frames : List FrameRec) (interval_seconds : ℚ) (k : Nat) : Nat :=
  ((frames.filter fun f => bucketIdx interval_seconds f.timestamp = k).map
    (·.size)).sum

/-- Spec-side description of a bucket's frame type: the first frame type
seen (first `Some`) among the frames assigned to bucket `k`. -/
def bucketFirstType (frames : List FrameRec) (interval_seconds : ℚ) (k : Nat) :
    Option String :=
  ((frames.filter fun f => bucketIdx interval_seconds f.timestamp = k).filterMap
    (·.frame_type)).head?

/-! ### Bucket-accumulator lemmas -/

theorem foldl_bucketStep_fst (n : Nat) (i : ℚ) (k : Nat) (hk : k < n)
    (fs : List FrameRec) :
    ∀ acc, ((fs.foldl (bucketStep n i) acc) k).1 = (acc k).1 + bucketBytes fs i k := by
  induction fs with
  | nil => intro acc; simp [bucketBytes]
  | cons f fs ih =>
    intro acc
    rw [List.foldl_cons, ih]
    by_cases hb : bucketIdx i f.timestamp = k
    · simp [bucketStep, hb, hk, bucketBytes, List.filter_cons]
      omega
    · have hstep : ((bucketStep n i acc f) k).1 = (acc k).1 := by
        by_cases hlt : bucketIdx i f.timestamp < n
        · simp only [bucketStep, if_pos hlt, if_neg (Ne.symm hb)]
        · simp only [bucketStep, if_neg hlt]
      rw [hstep]
      simp [bucketBytes, List.filter_cons, hb]

theorem foldl_bucketStep_type (n : Nat) (i : ℚ) (k : Nat) (hk : k < n)
    (fs : List FrameRec) :
    ∀ acc, ((fs.foldl (bucketStep n i) acc) k).2.2
      = ((acc k).2.2).or (bucketFirstType fs i k) := by
  induction fs with
  | nil => intro acc; simp [bucketFirstType]
  | cons f fs ih =>
    intro acc
    rw [List.foldl_cons, ih]
    by_cases hb : bucketIdx i f.timestamp = k
    · have hstep : ((bucketStep n i acc f) k).2.2
          = ((acc k).2.2).or f.frame_type := by
        simp only [bucketStep, hb, if_pos hk]
        cases h : (acc k).2.2 <;> simp [h, Option.or]
      rw [hstep]
      have hft : bucketFirstType (f :: fs) i k
          = (f.frame_type).or (bucketFirstType fs i k) := by
        simp only [bucketFirstType, List.filter_cons, hb]
        cases h : f.frame_type <;>
          simp [h, Option.or, List.filterMap_cons]
      rw [hft, Option.or_assoc]
    · have hstep : ((bucketStep n i acc f) k).2.2 = (acc k).2.2 := by
        by_cases hlt : bucketIdx i f.timestamp < n
        · simp only [bucketStep, if_pos hlt, if_neg (Ne.symm hb)]
        · simp only [bucketStep, if_neg hlt]
      have hft : bucketFirstType (f :: fs) i k = bucketFirstType fs i k := by
        simp [bucketFirstType, List.filter_cons, hb]
      rw [hstep, hft]

theorem bucketAccum_fst (fs : List FrameRec) (n : Nat) (i : ℚ) (k : Nat)
    (hk : k < n) : (bucketAccum fs n i k).1 = bucketBytes fs i k := by
  rw [bucketAccum, foldl_bucketStep_fst n i k hk fs]
  simp

theorem bucketAccum_type (fs : List FrameRec) (n : Nat) (i : ℚ) (k : Nat)
    (hk : k < n) : (bucketAccum fs n i k).2.2 = bucketFirstType fs i k := by
  rw [bucketAccum, foldl_bucketStep_type n i k hk fs]
  simp [Option.or]

/-- Frames with timestamps in `[0, duration)` land in a bucket below
`numIntervals duration interval` (provided the interval is positive). -/
theorem bucketIdx_lt_numIntervals {i d ts : ℚ} (hi : 0 < i) (h0 : 0 ≤ ts)
    (hd : ts < d) : bucketIdx i ts < numIntervals d i := by
  have hq : (0 : ℚ) ≤ ts / i := div_nonneg h0 hi.le
  have hlt : ts / i < d / i := by
    exact div_lt_div_of_pos_right hd hi
  have hfloor : ⌊ts / i⌋ < ⌈d / i⌉ :=
    Int.lt_ceil.mpr (lt_of_le_of_lt (Int.floor_le _) hlt)
  have hpos : (0 : ℤ) < ⌈d / i⌉ :=
    lt_of_le_of_lt (Int.floor_nonneg.mpr hq) hfloor
  exact (Int.toNat_lt_toNat hpos).mpr hfloor

theorem bucketBytes_partition (i : ℚ) (n : Nat) :
    ∀ fs : List FrameRec, (∀ f ∈ fs, bucketIdx i f.timestamp < n) →
      ∑ k ∈ Finset.range n, bucketBytes fs i k = (fs.map (·.size)).sum := by
  intro fs
  induction fs with
  | nil => intro _; simp [bucketBytes]
  | cons f fs ih =>
    intro h
    have hf : bucketIdx i f.timestamp < n := h f (by simp)
    have hrest : ∀ g ∈ fs, bucketIdx i g.timestamp < n := fun g hg =>
      h g (List.mem_cons_of_mem f hg)
    have hsplit : ∀ k, bucketBytes (f :: fs) i k
        = (if bucketIdx i f.timestamp = k then f.size else 0)
          + bucketBytes fs i k := by
      intro k
      by_cases hb : bucketIdx i f.timestamp = k <;>
        simp [bucketBytes, List.filter_cons, hb]
    calc ∑ k ∈ Finset.range n, bucketBytes (f :: fs) i k
        = ∑ k ∈ Finset.range n,
            ((if bucketIdx i f.timestamp = k then f.size else 0)
              + bucketBytes fs i k) :=
          Finset.sum_congr rfl fun k _ => hsplit k
      _ = (∑ k ∈ Finset.range n,
            if bucketIdx i f.timestamp = k then f.size else 0)
          + ∑ k ∈ Finset.range n, bucketBytes fs i k :=
          Finset.sum_add_distrib
      _ = f.size + (fs.map (·.size)).sum := by
          rw [ih hrest, Finset.sum_ite_eq (Finset.range n)
            (bucketIdx i f.timestamp) fun _ => f.size,
            if_pos (Finset.mem_range.mpr hf)]
      _ = ((f :: fs).map (·.size)).sum := by simp

/-- **C5** (aggregation contract): `aggregate_bitrate_intervals` computes
`n = ceil(duration / interval)` buckets, assigns each frame to bucket
`floor(ts / interval)`, discards frames whose bucket index is `≥ n`, and
produces for bucket `i` the data point
`(i · interval, bytes_i · 8 / interval, first frame type seen in bucket i)`;
empty frame input or zero duration yields the empty series; frames
`[(0.5, 1000), (1.5, 2000), (2.5, 1500)]` with interval `1.0` and duration
`3.0` yield bitrates `[8000, 16000, 12000]`. -/
theorem aggregate_bitrate_intervals_contract :
    (∀ (i d : ℚ), aggregate_bitrate_intervals [] i d = []) ∧
    (∀ (fs : List FrameRec) (i : ℚ), aggregate_bitrate_intervals fs i 0 = []) ∧
    (∀ (fs : List FrameRec) (i d : ℚ), fs ≠ [] →
      (aggregate_bitrate_intervals fs i d).length = numIntervals d i ∧
      ∀ k, k < numIntervals d i →
        (aggregate_bitrate_intervals fs i d)[k]? =
          some { timestamp := (k : ℚ) * i,
                 bitrate := (⌊((bucketBytes fs i k * 8 : Nat) : ℚ) / i⌋).toNat,
                 frame_type := bucketFirstType fs i k }) ∧
    ((aggregate_bitrate_intervals
        [⟨1/2, 1000, none⟩, ⟨3/2, 2000, none⟩, ⟨5/2, 1500, none⟩] 1 3).map
      (·.bitrate) = [8000, 16000, 12000]) := by
  refine ⟨?_, ?_, ?_, ?_⟩
  · intro i d; simp [aggregate_bitrate_intervals]
  · intro fs i
    by_cases h : fs = [] <;>
      simp [aggregate_bitrate_intervals, h, numIntervals]
  · intro fs i d hfs
    constructor
    · simp [aggregate_bitrate_intervals, hfs]
    · intro k hk
      simp only [aggregate_bitrate_intervals, if_neg hfs]
      rw [List.getElem?_map, List.getElem?_range hk, Option.map_some']
      rw [bucketAccum_fst fs _ i k hk, bucketAccum_type fs _ i k hk]
      rfl
  · norm_num [aggregate_bitrate_intervals, bucketAccum, bucketStep, bucketIdx,
      numIntervals, bucketBitrate, List.range_succ]
    simp only [Int.reduceToNat, List.range_succ, List.range_zero]
    simp
    norm_num
    simp

/-- Witness for C5: the contract instantiated on the three-frame example,
bucket 1. -/
theorem aggregate_bitrate_intervals_contract_witness :
    (aggregate_bitrate_intervals
        [⟨1/2, 1000, none⟩, ⟨3/2, 2000, none⟩, ⟨5/2, 1500, none⟩] 1 3).length
      = numIntervals 3 1 :=
  (aggregate_bitrate_intervals_contract.2.2.1
    [⟨1/2, 1000, none⟩, ⟨3/2, 2000, none⟩, ⟨5/2, 1500, none⟩] 1 3
    (by simp)).1

/-- **C7** (aggregation conservation): if all frame timestamps lie in
`[0, duration)` (and the interval is positive) then no frame is discarded —
every frame's bucket index is below the bucket count — and the bytes
assigned across all buckets, times 8, equal the sum of all frame sizes
times 8. -/
theorem aggregate_bitrate_intervals_conservation (fs : List FrameRec)
    (i d : ℚ) (hi : 0 < i)
    (hin : ∀ f ∈ fs, 0 ≤ f.timestamp ∧ f.timestamp < d) :
    (∀ f ∈ fs, bucketIdx i f.timestamp < numIntervals d i) ∧
    (∑ k ∈ Finset.range (numIntervals d i),
        (bucketAccum fs (numIntervals d i) i k).1) * 8
      = (fs.map (·.size)).sum * 8 := by
  have hb : ∀ f ∈ fs, bucketIdx i f.timestamp < numIntervals d i := fun f hf =>
    bucketIdx_lt_numIntervals hi (hin f hf).1 (hin f hf).2
  refine ⟨hb, ?_⟩
  have hsum : ∑ k ∈ Finset.range (numIntervals d i),
      (bucketAccum fs (numIntervals d i) i k).1
      = ∑ k ∈ Finset.range (numIntervals d i), bucketBytes fs i k :=
    Finset.sum_congr rfl fun k hk =>
      bucketAccum_fst fs _ i k (Finset.mem_range.mp hk)
  rw [hsum, bucketBytes_partition i _ fs hb]

/-- Witness for C7: conservation on the three-frame example. -/
theorem aggregate_bitrate_intervals_conservation_witness :
    (∑ k ∈ Finset.range (numIntervals 3 1),
        (bucketAccum [⟨1/2, 1000, none⟩, ⟨3/2, 2000, none⟩, ⟨5/2, 1500, none⟩]
          (numIntervals 3 1) 1 k).1) * 8
      = (([⟨1/2, 1000, none⟩, ⟨3/2, 2000, none⟩,
          ⟨5/2, 1500, none⟩] : List FrameRec).map (·.size)).sum * 8 :=
  (aggregate_bitrate_intervals_conservation
    [⟨1/2, 1000, none⟩, ⟨3/2, 2000, none⟩, ⟨5/2, 1500, none⟩] 1 3
    (by norm_num)
    (by
      intro f hf
      simp only [List.mem_cons, List.not_mem_nil, or_false] at hf
      rcases hf with rfl | rfl | rfl <;> norm_num)).2

/-! ## StatisticsEngine (`calculate_statistics`, parser.rs lines 552-644) -/

/-- `(avg_bitrate as f64 * 1.5) as u64`: the peak threshold. -/
def peak_threshold (avg : Nat) : Nat := (⌊(avg : ℚ) * 1.5⌋).toNat

/-- The peak-detection loop of `calculate_statistics` (parser.rs 600-621),
with the mutable state `(in_peak, peak_start, peak_bitrate, peak_intervals)`
carried as arguments.  A peak still open when the list ends is dropped. -/
def peakScan (threshold : Nat) :
    List BitrateDataPoint → Bool → ℚ → Nat → List PeakInterval →
    List PeakInterval
  | [], _, _, _, acc => acc
  | p :: rest, inPeak, peakStart, peakMax, acc =>
    if threshold < p.bitrate then
      if inPeak then
        peakScan threshold rest true peakStart (Nat.max peakMax p.bitrate) acc
      else
        peakScan threshold rest true p.timestamp p.bitrate acc
    else
      if inPeak then
        peakScan threshold rest false peakStart peakMax
          (if 5 < p.timestamp - peakStart then
            acc ++ [{ start_time := peakStart, end_time := p.timestamp,
                      peak_bitrate := peakMax,
                      duration := p.timestamp - peakStart }]
          else acc)
      else
        peakScan threshold rest false peakStart peakMax acc

/-- `calculate_statistics` (parser.rs 552-644). -/
def calculate_statistics (points : List BitrateDataPoint) : BitrateStatistics :=
  if points = [] then
    { min_bitrate := 0, max_bitrate := 0, avg_bitrate := 0, median_bitrate := 0,
      variance := 0, peak_intervals := [], total_frames := 0 }
  else
    let bitrates := points.map (·.bitrate)
    let min_bitrate := (bitrates.min?).getD 0
    let max_bitrate := (bitrates.max?).getD 0
    let avg_bitrate := bitrates.sum / bitrates.length
    let sorted := bitrates.mergeSort
    let median_bitrate :=
      if sorted.length % 2 = 0 then
        (sorted.getD (sorted.length / 2 - 1) 0 + sorted.getD (sorted.length / 2) 0) / 2
      else sorted.getD (sorted.length / 2) 0
    let variance :=
      ((bitrates.map fun (b : Nat) =>
        ((b : ℚ) - (avg_bitrate : ℚ)) * ((b : ℚ) - (avg_bitrate : ℚ))).sum)
        / (bitrates.length : ℚ)
    { min_bitrate, max_bitrate, avg_bitrate, median_bitrate, variance,
      peak_intervals := peakScan (peak_threshold avg_bitrate) points false 0 0 [],
      total_frames := points.length }

/-- The properties C4 asserts of every recorded peak, relative to the point
list `src` and the threshold `thr`. -/
def GoodPeak (thr : Nat) (src : List BitrateDataPoint) (pk : PeakInterval) : Prop :=
  pk.duration = pk.end_time - pk.start_time ∧ 5 < pk.duration ∧
  pk.start_time < pk.end_time ∧
  (∃ p ∈ src, p.timestamp = pk.start_time ∧ thr < p.bitrate) ∧
  (∃ p ∈ src, p.timestamp = pk.end_time ∧ p.bitrate ≤ thr)

theorem peakScan_good (thr : Nat) (src : List BitrateDataPoint) :
    ∀ (pts : List BitrateDataPoint), (∀ p ∈ pts, p ∈ src) →
    ∀ (inPeak : Bool) (peakStart : ℚ) (peakMax : Nat) (acc : List PeakInterval),
      (∀ pk ∈ acc, GoodPeak thr src pk) →
      (inPeak = true → ∃ p ∈ src, p.timestamp = peakStart ∧ thr < p.bitrate) →
      ∀ pk ∈ peakScan thr pts inPeak peakStart peakMax acc, GoodPeak thr src pk := by
  intro pts
  induction pts with
  | nil =>
    intro _ inPeak peakStart peakMax acc hacc _ pk hpk
    exact hacc pk hpk
  | cons p rest ih =>
    intro hsub inPeak peakStart peakMax acc hacc hopen pk hpk
    have hp : p ∈ src := hsub p (List.mem_cons_self p rest)
    have hrest : ∀ q ∈ rest, q ∈ src := fun q hq =>
      hsub q (List.mem_cons_of_mem p hq)
    rw [peakScan] at hpk
    by_cases hgt : thr < p.bitrate
    · rw [if_pos hgt] at hpk
      cases inPeak with
      | true =>
        simp only [if_pos rfl] at hpk
        exact ih hrest true peakStart (Nat.max peakMax p.bitrate) acc hacc hopen pk hpk
      | false =>
        simp only [Bool.false_eq_true, if_neg] at hpk
        refine ih hrest true p.timestamp p.bitrate acc hacc ?_ pk hpk
        intro _
        exact ⟨p, hp, rfl, hgt⟩
    · rw [if_neg hgt] at hpk
      have hle : p.bitrate ≤ thr := Nat.le_of_not_lt hgt
      cases inPeak with
      | true =>
        simp only [if_pos rfl] at hpk
        refine ih hrest false peakStart peakMax _ ?_ (by simp) pk hpk
        intro q hq
        by_cases hdur : 5 < p.timestamp - peakStart
        · rw [if_pos hdur] at hq
          rcases List.mem_append.mp hq with hq | hq
          · exact hacc q hq
          · rcases List.mem_singleton.mp hq with rfl
            obtain ⟨o, ho, hots, hogt⟩ := hopen rfl
            refine ⟨rfl, hdur, ?_, ⟨o, ho, hots, hogt⟩, ⟨p, hp, rfl, hle⟩⟩
            have : (0 : ℚ) < p.timestamp - peakStart := lt_trans (by norm_num) hdur
            linarith
        · rw [if_neg hdur] at hq
          exact hacc q hq
      | false =>
        simp only [Bool.false_eq_true, if_neg] at hpk
        exact ih hrest false peakStart peakMax acc hacc hopen pk hpk

theorem calc_stats_avg (points : List BitrateDataPoint) (h : points ≠ []) :
    (calculate_statistics points).avg_bitrate
      = (points.map (·.bitrate)).sum / (points.map (·.bitrate)).length := by
  simp [calculate_statistics, if_neg h]

theorem calc_stats_peaks (points : List BitrateDataPoint) (h : points ≠ []) :
    (calculate_statistics points).peak_intervals
      = peakScan
          (peak_threshold
            ((points.map (·.bitrate)).sum / (points.map (·.bitrate)).length))
          points false 0 0 [] := by
  simp [calculate_statistics, if_neg h]

/-- Recorded peaks are never dropped by the rest of the scan. -/
theorem peakScan_mem_mono (thr : Nat) :
    ∀ (pts : List BitrateDataPoint) (inPeak : Bool) (peakStart : ℚ)
      (peakMax : Nat) (acc : List PeakInterval) (pk : PeakInterval),
      pk ∈ acc → pk ∈ peakScan thr pts inPeak peakStart peakMax acc := by
  intro pts
  induction pts with
  | nil => intro inPeak ps pm acc pk hpk; exact hpk
  | cons p rest ih =>
    intro inPeak ps pm acc pk hpk
    rw [peakScan]
    by_cases hgt : thr < p.bitrate
    · rw [if_pos hgt]
      cases inPeak with
      | true => exact ih true ps (Nat.max pm p.bitrate) acc pk hpk
      | false =>
        simp only [Bool.false_eq_true, if_neg]
        exact ih true p.timestamp p.bitrate acc pk hpk
    · rw [if_neg hgt]
      cases inPeak with
      | true =>
        simp only [if_pos rfl]
        by_cases hdur : 5 < p.timestamp - ps
        · rw [if_pos hdur]
          exact ih false ps pm _ pk (List.mem_append_left _ hpk)
        · rw [if_neg hdur]
          exact ih false ps pm acc pk hpk
      | false =>
        simp only [Bool.false_eq_true, if_neg]
        exact ih false ps pm acc pk hpk

/-- **C4** (peak scan): the peak threshold is `floor(avg · 1.5)`; every
recorded `PeakInterval` has `duration = end_time − start_time > 5.0` and
`end_time > start_time`, opens at a point of the series whose bitrate
exceeds the threshold, and closes at a point of the series whose bitrate is
at most the threshold (so a peak still open at the end of the sequence is
never recorded); conversely, a point at most the threshold reached with a
peak open for more than 5 seconds does record the interval. -/
theorem calculate_statistics_peak_scan :
    (∀ points : List BitrateDataPoint,
      ∀ pk ∈ (calculate_statistics points).peak_intervals,
      pk.duration = pk.end_time - pk.start_time ∧ 5 < pk.duration ∧
      pk.start_time < pk.end_time ∧
      (∃ p ∈ points, p.timestamp = pk.start_time ∧
        (⌊((calculate_statistics points).avg_bitrate : ℚ) * 1.5⌋).toNat
          < p.bitrate) ∧
      (∃ p ∈ points, p.timestamp = pk.end_time ∧
        p.bitrate ≤ (⌊((calculate_statistics points).avg_bitrate : ℚ) * 1.5⌋).toNat)) ∧
    (∀ (thr : Nat) (pts : List BitrateDataPoint) (peakStart : ℚ)
        (peakMax : Nat) (acc : List PeakInterval) (p : BitrateDataPoint),
      p.bitrate ≤ thr → 5 < p.timestamp - peakStart →
      (PeakInterval.mk peakStart p.timestamp peakMax (p.timestamp - peakStart))
        ∈ peakScan thr (p :: pts) true peakStart peakMax acc) := by
  constructor
  · intro points pk hpk
    by_cases h : points = []
    · rw [h] at hpk
      simp [calculate_statistics] at hpk
    · rw [calc_stats_peaks points h] at hpk
      have hG := peakScan_good _ points points (fun p hp => hp) false 0 0 []
        (by simp) (by simp) pk hpk
      obtain ⟨h1, h2, h3, h4, h5⟩ := hG
      rw [calc_stats_avg points h]
      exact ⟨h1, h2, h3, h4, h5⟩
  · intro thr pts ps pm acc p hle hdur
    rw [peakScan, if_neg (Nat.not_lt.mpr hle)]
    simp only [if_pos rfl, if_pos hdur]
    exact peakScan_mem_mono thr pts false ps pm _ _
      (List.mem_append_right _ (List.mem_singleton.mpr rfl))

/-- Witness for C4: on the series `[(0, 0), (1, 100), (7, 0)]` (average 33,
threshold 49) the scan records exactly the peak `(1, 7, 100, 6)`, and the
theorem's conclusions hold of it. -/
theorem calculate_statistics_peak_scan_witness :
    (PeakInterval.mk 1 7 100 6).duration
        = (PeakInterval.mk 1 7 100 6).end_time
          - (PeakInterval.mk 1 7 100 6).start_time ∧
    5 < (PeakInterval.mk 1 7 100 6).duration ∧
    (PeakInterval.mk 1 7 100 6).start_time < (PeakInterval.mk 1 7 100 6).end_time ∧
    (∃ p ∈ ([⟨0, 0, none⟩, ⟨1, 100, none⟩, ⟨7, 0, none⟩] : List BitrateDataPoint),
      p.timestamp = (PeakInterval.mk 1 7 100 6).start_time ∧
      (⌊((calculate_statistics
          [⟨0, 0, none⟩, ⟨1, 100, none⟩, ⟨7, 0, none⟩]).avg_bitrate : ℚ)
        * 1.5⌋).toNat < p.bitrate) ∧
    (∃ p ∈ ([⟨0, 0, none⟩, ⟨1, 100, none⟩, ⟨7, 0, none⟩] : List BitrateDataPoint),
      p.timestamp = (PeakInterval.mk 1 7 100 6).end_time ∧
      p.bitrate ≤ (⌊((calculate_statistics
          [⟨0, 0, none⟩, ⟨1, 100, none⟩, ⟨7, 0, none⟩]).avg_bitrate : ℚ)
        * 1.5⌋).toNat) :=
  calculate_statistics_peak_scan.1
    [⟨0, 0, none⟩, ⟨1, 100, none⟩, ⟨7, 0, none⟩] ⟨1, 7, 100, 6⟩
    (by
      rw [calc_stats_peaks _ (by simp)]
      norm_num [peakScan, peak_threshold])

/-- **C6** (statistics definitions): for non-empty input,
`avg_bitrate = Σ bitrates / n` by integer division; the median is the middle
element of a sorted copy (odd `n`) or the integer average of the two middle
elements (even `n`); the standard deviation is the square root of the
population variance `Σ(b − avg)² / n` (the embedding stores the radicand in
the `variance` field, and `Real.sqrt variance` squares back to it and is
non-negative); for empty input all statistics are zero with an empty peak
list. -/
theorem calculate_statistics_definitions :
    (∀ points : List BitrateDataPoint, points ≠ [] →
      (calculate_statistics points).avg_bitrate
        = (points.map (·.bitrate)).sum / points.length ∧
      (∃ l : List Nat, l.Perm (points.map (·.bitrate)) ∧ l.Sorted (· ≤ ·) ∧
        (calculate_statistics points).median_bitrate
          = if points.length % 2 = 0 then
              (l.getD (points.length / 2 - 1) 0 + l.getD (points.length / 2) 0) / 2
            else l.getD (points.length / 2) 0) ∧
      (calculate_statistics points).variance
        = ((points.map fun p =>
            ((p.bitrate : ℚ) - ((calculate_statistics points).avg_bitrate : ℚ))
            * ((p.bitrate : ℚ) - ((calculate_statistics points).avg_bitrate : ℚ))).sum)
          / (points.length : ℚ) ∧
      Real.sqrt ((calculate_statistics points).variance : ℝ) ^ 2
        = (((calculate_statistics points).variance : ℚ) : ℝ) ∧
      0 ≤ Real.sqrt ((calculate_statistics points).variance : ℝ)) ∧
    calculate_statistics [] =
      { min_bitrate := 0, max_bitrate := 0, avg_bitrate := 0,
        median_bitrate := 0, variance := 0, peak_intervals := [],
        total_frames := 0 } := by
  constructor
  · intro points h
    have havg : (calculate_statistics points).avg_bitrate
        = (points.map (·.bitrate)).sum / points.length := by
      rw [calc_stats_avg points h, List.length_map]
    have hvar : (calculate_statistics points).variance
        = ((points.map fun p =>
            ((p.bitrate : ℚ) - ((calculate_statistics points).avg_bitrate : ℚ))
            * ((p.bitrate : ℚ) - ((calculate_statistics points).avg_bitrate : ℚ))).sum)
          / (points.length : ℚ) := by
      simp only [calculate_statistics, if_neg h]
      rw [List.map_map, List.length_map]
      rfl
    have hvar_nonneg : (0 : ℚ) ≤ (calculate_statistics points).variance := by
      rw [hvar]
      apply div_nonneg
      · apply List.sum_nonneg
        intro x hx
        obtain ⟨p, _, rfl⟩ := List.mem_map.mp hx
        exact mul_self_nonneg _
      · exact_mod_cast Nat.zero_le _
    refine ⟨havg, ?_, hvar, ?_, Real.sqrt_nonneg _⟩
    · refine ⟨(points.map (·.bitrate)).mergeSort,
        List.mergeSort_perm _ _, List.sorted_mergeSort' _, ?_⟩
      have hlen : ((points.map (·.bitrate)).mergeSort).length = points.length := by
        rw [(List.mergeSort_perm _ _).length_eq, List.length_map]
      simp only [calculate_statistics, if_neg h]
      rw [hlen]
    · exact Real.sq_sqrt (by exact_mod_cast hvar_nonneg)
  · rfl

/-- Witness for C6: the statistics definitions instantiated on the series
`[(0, 1000), (1, 2000), (2, 3000)]`. -/
theorem calculate_statistics_definitions_witness :
    (calculate_statistics
        ([⟨0, 1000, none⟩, ⟨1, 2000, none⟩,
          ⟨2, 3000, none⟩] : List BitrateDataPoint)).avg_bitrate
      = (([⟨0, 1000, none⟩, ⟨1, 2000, none⟩,
          ⟨2, 3000, none⟩] : List BitrateDataPoint).map (·.bitrate)).sum
        / ([⟨0, 1000, none⟩, ⟨1, 2000, none⟩,
          ⟨2, 3000, none⟩] : List BitrateDataPoint).length :=
  (calculate_statistics_definitions.1
    [⟨0, 1000, none⟩, ⟨1, 2000, none⟩, ⟨2, 3000, none⟩] (by simp)).1

/-! ## SamplingStrategy (`parse_ffprobe_sampled`, parser.rs lines 715-806)

The ffprobe subprocess invocation together with its CSV parse
(`parse_ffprobe_packets_internal` before its empty-result check) enters as
an oracle `raw : Option (ℚ × ℚ) → Except String (List FrameRec)`, indexed
by the optional read interval. The textual read-interval argument
`"{start}%+{duration}"` is modelled as the pair `(start, duration)`. -/

/-- `SAMPLING_THRESHOLD_BYTES = 5 GiB` (parser.rs 21). -/
def SAMPLING_THRESHOLD_BYTES : Nat := 5 * 1024 * 1024 * 1024

/-- `SAMPLE_COUNT = 10` (parser.rs 25). -/
def SAMPLE_COUNT : Nat := 10

/-- `SAMPLE_DURATION_SECS = 30.0` (parser.rs 28). -/
def SAMPLE_DURATION_SECS : ℚ := 30

/-- The read interval `"{p}%+{SAMPLE_DURATION_SECS}"` for a sample starting
at `p` (parser.rs 766). -/
def readInterval (p : ℚ) : ℚ × ℚ := (p, SAMPLE_DURATION_SECS)

/-- `parse_ffprobe_packets_internal` (parser.rs 48-208): runs the probe via
the oracle and fails when the parsed packet list is empty
(parser.rs 196-199), so a successful result is never empty. -/
def parse_ffprobe_packets_internal
    (raw : Option (ℚ × ℚ) → Except String (List FrameRec))
    (iv : Option (ℚ × ℚ)) : Except String (List FrameRec) :=
  match raw iv with
  | .error e => .error e
  | .ok r => if r = [] then .error "No packets found" else .ok r

/-- `parse_ffprobe_packets` (parser.rs 37-42): a full probe, no interval. -/
def parse_ffprobe_packets
    (raw : Option (ℚ × ℚ) → Except String (List FrameRec)) :
    Except String (List FrameRec) :=
  parse_ffprobe_packets_internal raw none

/-- The sample positions `i * (duration / SAMPLE_COUNT)` for
`i = 0 .. SAMPLE_COUNT - 1` (parser.rs 749-753). -/
def samplePositions (duration : ℚ) : List ℚ :=
  (List.range SAMPLE_COUNT).map fun (i : Nat) => (i : ℚ) * (duration / (SAMPLE_COUNT : ℚ))

/-- The packets contributed by the sample at position `p`: the probed list
on success, nothing on failure (parser.rs 775-785). -/
def sampleResult (raw : Option (ℚ × ℚ) → Except String (List FrameRec))
    (p : ℚ) : List FrameRec :=
  match parse_ffprobe_packets_internal raw (some (readInterval p)) with
  | .ok ps => ps
  | .error _ => []

/-- `parse_ffprobe_sampled` (parser.rs 715-806). -/
def parse_ffprobe_sampled
    (raw : Option (ℚ × ℚ) → Except String (List FrameRec))
    (duration : ℚ) (file_size : Nat) : Except String (List FrameRec × Bool) :=
  if file_size < SAMPLING_THRESHOLD_BYTES then
    (parse_ffprobe_packets raw).map fun d => (d, false)
  else if duration ≤ SAMPLE_DURATION_SECS * (SAMPLE_COUNT : ℚ) then
    (parse_ffprobe_packets raw).map fun d => (d, false)
  else
    let allPackets := (samplePositions duration).foldl
      (fun acc p =>
        match parse_ffprobe_packets_internal raw (some (readInterval p)) with
        | .ok ps => acc ++ ps
        | .error _ => acc) []
    if allPackets = [] then
      (parse_ffprobe_packets raw).map fun d => (d, false)
    else .ok (allPackets, true)

theorem foldl_sampleResult
    (raw : Option (ℚ × ℚ) → Except String (List FrameRec)) :
    ∀ (ps : List ℚ) (acc : List FrameRec),
      ps.foldl
        (fun acc p =>
          match parse_ffprobe_packets_internal raw (some (readInterval p)) with
          | .ok ps => acc ++ ps
          | .error _ => acc) acc
      = acc ++ (ps.map (sampleResult raw)).flatten := by
  intro ps
  induction ps with
  | nil => intro acc; simp
  | cons p ps ih =>
    intro acc
    rw [List.foldl_cons, ih]
    cases h : parse_ffprobe_packets_internal raw (some (readInterval p)) <;>
      simp [sampleResult, h]

theorem sampleResult_ne_nil_iff
    (raw : Option (ℚ × ℚ) → Except String (List FrameRec)) (p : ℚ) :
    sampleResult raw p ≠ [] ↔
      ∃ ps, parse_ffprobe_packets_internal raw (some (readInterval p)) = .ok ps := by
  rw [sampleResult]
  cases h : parse_ffprobe_packets_internal raw (some (readInterval p)) with
  | error e => simp [h]
  | ok ps =>
    simp only [h]
    constructor
    · intro _; exact ⟨ps, rfl⟩
    · intro _
      rw [parse_ffprobe_packets_internal] at h
      cases hr : raw (some (readInterval p)) with
      | error e => simp [hr] at h
      | ok r =>
        simp only [hr] at h
        by_cases he : r = []
        · simp [he] at h
        · rw [if_neg he] at h
          cases h
          exact he

theorem packets_internal_ok_ne_nil
    {raw : Option (ℚ × ℚ) → Except String (List FrameRec)}
    {iv : Option (ℚ × ℚ)} {ps : List FrameRec}
    (h : parse_ffprobe_packets_internal raw iv = .ok ps) : ps ≠ [] := by
  rw [parse_ffprobe_packets_internal] at h
  cases hr : raw iv with
  | error e => simp [hr] at h
  | ok r =>
    simp only [hr] at h
    by_cases he : r = []
    · simp [he] at h
    · rw [if_neg he] at h
      cases h
      exact he

theorem const_thirty_times_count : SAMPLE_DURATION_SECS * (SAMPLE_COUNT : ℚ) = 300 := by
  norm_num [SAMPLE_DURATION_SECS, SAMPLE_COUNT]

/-- The sampling branch of `parse_ffprobe_sampled`, rewritten through
`foldl_sampleResult`: for an over-threshold, over-300-second input the
result is the concatenation of the per-sample packets when any sample
contributed, and the full-probe fallback otherwise. -/
theorem sampled_branch (raw : Option (ℚ × ℚ) → Except String (List FrameRec))
    (d : ℚ) (sz : Nat) (hsz : SAMPLING_THRESHOLD_BYTES ≤ sz) (hd : 300 < d) :
    parse_ffprobe_sampled raw d sz =
      if ((samplePositions d).map (sampleResult raw)).flatten = [] then
        (parse_ffprobe_packets raw).map fun dd => (dd, false)
      else .ok (((samplePositions d).map (sampleResult raw)).flatten, true) := by
  have hdc : ¬(d ≤ SAMPLE_DURATION_SECS * (SAMPLE_COUNT : ℚ)) := by
    rw [const_thirty_times_count]; exact not_le.mpr hd
  rw [parse_ffprobe_sampled, if_neg (Nat.not_lt.mpr hsz), if_neg hdc]
  simp only [foldl_sampleResult raw, List.nil_append]

/-- **C3** (sampling decision tree): a file under 5 GiB gets a full
packet-mode probe with `sampled = false`; so does an over-threshold file of
duration at most 300 s; otherwise the ten positions `i · (duration / 10)`
are probed with read interval `(p, 30)`, all returned frames are
concatenated, a run where every sample fails falls back to the full probe
with `sampled = false`, and `sampled = true` is returned exactly when at
least one sample succeeded. -/
theorem parse_ffprobe_sampled_decision_tree :
    (∀ (raw : Option (ℚ × ℚ) → Except String (List FrameRec)) (d : ℚ)
        (sz : Nat) (data : List FrameRec),
      sz < SAMPLING_THRESHOLD_BYTES → raw none = .ok data → data ≠ [] →
      parse_ffprobe_sampled raw d sz = .ok (data, false)) ∧
    (∀ (raw : Option (ℚ × ℚ) → Except String (List FrameRec)) (d : ℚ)
        (sz : Nat) (data : List FrameRec),
      SAMPLING_THRESHOLD_BYTES ≤ sz → d ≤ 300 → raw none = .ok data →
      data ≠ [] → parse_ffprobe_sampled raw d sz = .ok (data, false)) ∧
    (∀ d : ℚ, samplePositions d
      = (List.range 10).map fun (i : Nat) => (i : ℚ) * (d / 10)) ∧
    (∀ p : ℚ, readInterval p = (p, 30)) ∧
    (∀ (raw : Option (ℚ × ℚ) → Except String (List FrameRec)) (d : ℚ)
        (sz : Nat) (si : Nat → List FrameRec),
      SAMPLING_THRESHOLD_BYTES ≤ sz → 300 < d →
      (∀ i : Nat, i < 10 →
        raw (some ((i : ℚ) * (d / 10), 30)) = .ok (si i) ∧ si i ≠ []) →
      parse_ffprobe_sampled raw d sz
        = .ok (((List.range 10).map si).flatten, true)) ∧
    (∀ (raw : Option (ℚ × ℚ) → Except String (List FrameRec)) (d : ℚ)
        (sz : Nat) (data : List FrameRec),
      SAMPLING_THRESHOLD_BYTES ≤ sz → 300 < d →
      (∀ i : Nat, i < 10 → ∃ e, parse_ffprobe_packets_internal raw
        (some (readInterval ((i : ℚ) * (d / 10)))) = .error e) →
      raw none = .ok data → data ≠ [] →
      parse_ffprobe_sampled raw d sz = .ok (data, false)) ∧
    (∀ (raw : Option (ℚ × ℚ) → Except String (List FrameRec)) (d : ℚ)
        (sz : Nat),
      SAMPLING_THRESHOLD_BYTES ≤ sz → 300 < d →
      ((∃ l, parse_ffprobe_sampled raw d sz = .ok (l, true)) ↔
        ∃ i : Nat, i < 10 ∧ ∃ ps, parse_ffprobe_packets_internal raw
          (some (readInterval ((i : ℚ) * (d / 10)))) = .ok ps)) := by
  have hpos : ∀ d : ℚ, samplePositions d
      = (List.range 10).map fun (i : Nat) => (i : ℚ) * (d / 10) := by
    intro d; simp [samplePositions, SAMPLE_COUNT]
  refine ⟨?_, ?_, hpos, fun p => rfl, ?_, ?_, ?_⟩
  · intro raw d sz data hsz hraw hne
    rw [parse_ffprobe_sampled, if_pos hsz, parse_ffprobe_packets,
      parse_ffprobe_packets_internal, hraw]
    simp [hne, Except.map]
  · intro raw d sz data hsz hd hraw hne
    have hdc : d ≤ SAMPLE_DURATION_SECS * (SAMPLE_COUNT : ℚ) := by
      rw [const_thirty_times_count]; exact hd
    rw [parse_ffprobe_sampled, if_neg (Nat.not_lt.mpr hsz), if_pos hdc,
      parse_ffprobe_packets, parse_ffprobe_packets_internal, hraw]
    simp [hne, Except.map]
  · intro raw d sz si hsz hd hsamp
    rw [sampled_branch raw d sz hsz hd, hpos d]
    have hmap : ((List.range 10).map fun (i : Nat) => (i : ℚ) * (d / 10)).map
        (sampleResult raw) = (List.range 10).map si := by
      rw [List.map_map]
      refine List.map_congr_left ?_
      intro i hi
      obtain ⟨hraw, hne⟩ := hsamp i (List.mem_range.mp hi)
      simp only [Function.comp_apply, sampleResult,
        parse_ffprobe_packets_internal, readInterval, SAMPLE_DURATION_SECS]
      rw [hraw]
      simp [hne]
    rw [hmap]
    have hne0 : ((List.range 10).map si).flatten ≠ [] := by
      intro hflat
      have h0 : si 0 = [] := by
        have : si 0 ∈ (List.range 10).map si :=
          List.mem_map.mpr ⟨0, List.mem_range.mpr (by norm_num), rfl⟩
        exact (List.flatten_eq_nil_iff.mp hflat) _ this
      exact (hsamp 0 (by norm_num)).2 h0
    rw [if_neg hne0]
  · intro raw d sz data hsz hd hfail hraw hne
    rw [sampled_branch raw d sz hsz hd, hpos d]
    have hmap : (((List.range 10).map fun (i : Nat) => (i : ℚ) * (d / 10)).map
        (sampleResult raw)).flatten = [] := by
      rw [List.flatten_eq_nil_iff]
      intro l hl
      rw [List.map_map] at hl
      obtain ⟨i, hi, rfl⟩ := List.mem_map.mp hl
      obtain ⟨e, he⟩ := hfail i (List.mem_range.mp hi)
      simp [Function.comp_apply, sampleResult, he]
    rw [if_pos hmap, parse_ffprobe_packets, parse_ffprobe_packets_internal,
      hraw]
    simp [hne, Except.map]
  · intro raw d sz hsz hd
    rw [sampled_branch raw d sz hsz hd, hpos d]
    by_cases hflat : (((List.range 10).map fun (i : Nat) => (i : ℚ) * (d / 10)).map
        (sampleResult raw)).flatten = []
    · rw [if_pos hflat]
      constructor
      · intro ⟨l, hl⟩
        exfalso
        cases hp : parse_ffprobe_packets raw with
        | error e => rw [hp] at hl; simp [Except.map] at hl
        | ok dd =>
          rw [hp] at hl
          simp [Except.map] at hl
      · intro ⟨i, hi, ps, hok⟩
        exfalso
        have hmem : sampleResult raw ((i : ℚ) * (d / 10))
            ∈ ((List.range 10).map fun (j : Nat) => (j : ℚ) * (d / 10)).map
              (sampleResult raw) := by
          rw [List.map_map]
          exact List.mem_map.mpr ⟨i, List.mem_range.mpr hi, rfl⟩
        have hnil := (List.flatten_eq_nil_iff.mp hflat) _ hmem
        have : sampleResult raw ((i : ℚ) * (d / 10)) = ps := by
          simp [sampleResult, hok]
        rw [this] at hnil
        exact packets_internal_ok_ne_nil hok hnil
    · rw [if_neg hflat]
      constructor
      · intro _
        obtain ⟨l, hl, hlne⟩ : ∃ l ∈ ((List.range 10).map
            fun (i : Nat) => (i : ℚ) * (d / 10)).map (sampleResult raw), l ≠ [] := by
          by_contra hall
          push_neg at hall
          exact hflat (List.flatten_eq_nil_iff.mpr hall)
        rw [List.map_map] at hl
        obtain ⟨i, hi, hres⟩ := List.mem_map.mp hl
        refine ⟨i, List.mem_range.mp hi, ?_⟩
        rw [← hres] at hlne
        have hlne2 : sampleResult raw ((i : ℚ) * (d / 10)) ≠ [] := by
          simpa [Function.comp] using hlne
        exact (sampleResult_ne_nil_iff raw _).mp hlne2
      · intro _
        exact ⟨_, rfl⟩

/-- Witness for C3: a 6 GiB file with duration 200 s takes the "short but
dense" branch and yields the full-probe result with `sampled = false`. -/
theorem parse_ffprobe_sampled_decision_tree_witness :
    parse_ffprobe_sampled (fun _ => .ok [⟨0, 1, none⟩]) 200
      (6 * 1024 * 1024 * 1024) = .ok ([⟨0, 1, none⟩], false) :=
  parse_ffprobe_sampled_decision_tree.2.1 (fun _ => .ok [⟨0, 1, none⟩]) 200
    (6 * 1024 * 1024 * 1024) [⟨0, 1, none⟩]
    (by norm_num [SAMPLING_THRESHOLD_BYTES]) (by norm_num) rfl (by simp)

/-! ## ProbeCache (src/media/probe_cache.rs)

`Instant`s are modelled as rationals on an absolute time axis, so an
entry's age at time `now` is `now - cached_at`; `get_file_mtime` (which
returns `None` when the stat or the `modified()` call fails) enters as the
`current_mtime` argument, and `run_ffprobe` plus the serde-JSON parse enter
as oracles. The `parsed : serde_json::Value` payload is carried as an
opaque string. -/

structure CachedProbeResult where
  json_data : String
  parsed : String
  file_mtime : Option Nat
  cached_at : ℚ
deriving DecidableEq, Repr

/-- `CACHE_MAX_AGE` = 5 minutes (probe_cache.rs 35). -/
def CACHE_MAX_AGE : ℚ := 300

/-- The mtime comparison of `is_cache_valid` (probe_cache.rs 55-64): the
entry is stale only when both the stored and the current mtime are present
and differ. -/
def mtime_matches : Option Nat → Option Nat → Bool
  | some cached, some current => if cached ≠ current then false else true
  | none, _ => true
  | some _, none => true

/-- `is_cache_valid` (probe_cache.rs 47-65). -/
def is_cache_valid (entry : CachedProbeResult) (current_mtime : Option Nat)
    (now : ℚ) : Bool :=
  if now - entry.cached_at > CACHE_MAX_AGE then false
  else mtime_matches entry.file_mtime current_mtime

/-- The `PROBE_CACHE` DashMap, as an association list (first match wins). -/
def ProbeCache : Type := List (String × CachedProbeResult)

/-- `PROBE_CACHE.insert` replaces any entry at the same path. -/
def cacheInsert (path : String) (e : CachedProbeResult) (c : ProbeCache) :
    ProbeCache :=
  (path, e) :: (c : List (String × CachedProbeResult)).filter fun kv => kv.1 ≠ path

/-- The refresh path of `get_probe_data` (probe_cache.rs 115-134): run
ffprobe, parse, store on success; on failure the cache is untouched. -/
def probeRefresh (cache : ProbeCache) (path : String)
    (current_mtime : Option Nat) (now : ℚ)
    (runFfprobe : Except String String)
    (parseJson : String → Except String String) :
    Except String (String × String × Bool) × ProbeCache :=
  match runFfprobe with
  | .error e => (.error e, cache)
  | .ok json_data =>
    match parseJson json_data with
    | .error e => (.error e, cache)
    | .ok parsed =>
      (.ok (json_data, parsed, false),
        cacheInsert path ⟨json_data, parsed, current_mtime, now⟩ cache)

/-- `get_probe_data` (probe_cache.rs 102-135): returns
`(json, parsed, was_cached)` and the cache after the call. On a missing or
invalid entry it re-runs ffprobe synchronously; the stale entry is replaced
on success. -/
def get_probe_data (cache : ProbeCache) (path : String)
    (current_mtime : Option Nat) (now : ℚ)
    (runFfprobe : Except String String)
    (parseJson : String → Except String String) :
    Except String (String × String × Bool) × ProbeCache :=
  match (cache : List (String × CachedProbeResult)).lookup path with
  | some entry =>
    if is_cache_valid entry current_mtime now then
      (.ok (entry.json_data, entry.parsed, true), cache)
    else probeRefresh cache path current_mtime now runFfprobe parseJson
  | none => probeRefresh cache path current_mtime now runFfprobe parseJson

theorem is_cache_valid_true_elim {entry : CachedProbeResult}
    {mt : Option Nat} {now : ℚ} (h : is_cache_valid entry mt now = true) :
    now - entry.cached_at ≤ CACHE_MAX_AGE ∧
    ∀ a b, entry.file_mtime = some a → mt = some b → a = b := by
  by_cases hage : now - entry.cached_at > CACHE_MAX_AGE
  · rw [is_cache_valid, if_pos hage] at h
    exact absurd h (by simp)
  · refine ⟨not_lt.mp hage, ?_⟩
    intro a b ha hb
    rw [is_cache_valid, if_neg hage, ha, hb] at h
    by_cases hab : a = b
    · exact hab
    · simp [mtime_matches, hab] at h

theorem probeRefresh_fst_ne_cached (cache : ProbeCache) (path : String)
    (mt : Option Nat) (now : ℚ) (rf : Except String String)
    (pj : String → Except String String) (json parsed : String) :
    (probeRefresh cache path mt now rf pj).1 ≠ .ok (json, parsed, true) := by
  cases hf : rf with
  | error e => simp [probeRefresh, hf]
  | ok j =>
    cases hp : pj j with
    | error e => simp [probeRefresh, hf, hp]
    | ok p => simp [probeRefresh, hf, hp]

/-- **C2** (amended, probe-cache coherence): `get_probe_data` returns a
cached entry only if the entry's age is at most 5 minutes (the entry
becomes stale only when strictly older than `CACHE_MAX_AGE`) and the stored
and current mtimes do not disagree — whenever both are present they are
equal, so it never returns an entry whose stored `file_mtime` differs from
a present on-disk mtime; and on an invalid entry it synchronously re-runs
the metadata probe, replaces the stale entry with the fresh result, and
returns it with `was_cached = false`. -/
theorem get_probe_data_coherence :
    (∀ (cache : ProbeCache) (path : String) (mt : Option Nat) (now : ℚ)
        (rf : Except String String) (pj : String → Except String String)
        (json parsed : String),
      (get_probe_data cache path mt now rf pj).1 = .ok (json, parsed, true) →
      ∃ entry, (cache : List (String × CachedProbeResult)).lookup path
          = some entry ∧
        json = entry.json_data ∧ parsed = entry.parsed ∧
        now - entry.cached_at ≤ CACHE_MAX_AGE ∧
        (∀ a b, entry.file_mtime = some a → mt = some b → a = b)) ∧
    (∀ (cache : ProbeCache) (path : String) (mt : Option Nat) (now : ℚ)
        (pj : String → Except String String) (entry : CachedProbeResult)
        (json parsed : String),
      (cache : List (String × CachedProbeResult)).lookup path = some entry →
      is_cache_valid entry mt now = false →
      pj json = .ok parsed →
      (get_probe_data cache path mt now (.ok json) pj).1
          = .ok (json, parsed, false) ∧
      ((get_probe_data cache path mt now (.ok json) pj).2 :
          List (String × CachedProbeResult)).lookup path
        = some ⟨json, parsed, mt, now⟩) := by
  constructor
  · intro cache path mt now rf pj json parsed h
    cases hlk : (cache : List (String × CachedProbeResult)).lookup path with
    | none =>
      simp only [get_probe_data, hlk] at h
      exact absurd h (probeRefresh_fst_ne_cached cache path mt now rf pj json parsed)
    | some entry =>
      simp only [get_probe_data, hlk] at h
      by_cases hv : is_cache_valid entry mt now = true
      · rw [if_pos hv] at h
        simp only [Except.ok.injEq, Prod.mk.injEq] at h
        obtain ⟨hj, hp, -⟩ := h
        obtain ⟨hage, hmt⟩ := is_cache_valid_true_elim hv
        exact ⟨entry, rfl, hj.symm, hp.symm, hage, hmt⟩
      · rw [if_neg hv] at h
        exact absurd h (probeRefresh_fst_ne_cached cache path mt now rf pj json parsed)
  · intro cache path mt now pj entry json parsed hlk hv hpj
    have hcall : get_probe_data cache path mt now (.ok json) pj
        = (.ok (json, parsed, false),
            cacheInsert path ⟨json, parsed, mt, now⟩ cache) := by
      simp only [get_probe_data, hlk, hv, Bool.false_eq_true, if_false,
        probeRefresh, hpj]
    rw [hcall]
    exact ⟨rfl, by simp [cacheInsert, List.lookup]⟩

/-- Counterexample to C2 as stated: at age exactly 300 s — which is not
*under* 5 minutes — with matching mtimes, the entry is still served from
the cache (`is_cache_valid` uses `elapsed > CACHE_MAX_AGE`, so 300 s is
valid). -/
theorem get_probe_data_age_boundary_cex :
    (get_probe_data [("f", ⟨"j", "p", some 5, 0⟩)] "f" (some 5) 300
        (.error "unused") (fun _ => .error "unused")).1
      = .ok ("j", "p", true) ∧
    ¬((300 : ℚ) - 0 < CACHE_MAX_AGE) := by
  constructor
  · norm_num [get_probe_data, List.lookup, is_cache_valid, CACHE_MAX_AGE,
      mtime_matches]
  · norm_num [CACHE_MAX_AGE]

/-- Witness for C2 (amended): a stale entry (age 400 s) is replaced by the
freshly probed result and returned with `was_cached = false`. -/
theorem get_probe_data_coherence_witness :
    (get_probe_data [("f", ⟨"oldj", "oldp", some 5, 0⟩)] "f" (some 7) 400
        (.ok "J") (fun _ => .ok "P")).1 = .ok ("J", "P", false) ∧
    ((get_probe_data [("f", ⟨"oldj", "oldp", some 5, 0⟩)] "f" (some 7) 400
        (.ok "J") (fun _ => .ok "P")).2 :
      List (String × CachedProbeResult)).lookup "f"
      = some ⟨"J", "P", some 7, 400⟩ :=
  get_probe_data_coherence.2 [("f", ⟨"oldj", "oldp", some 5, 0⟩)] "f"
    (some 7) 400 (fun _ => .ok "P") ⟨"oldj", "oldp", some 5, 0⟩ "J" "P"
    (by simp [List.lookup])
    (by norm_num [is_cache_valid, CACHE_MAX_AGE])
    rfl

/-- **C10**: a cache entry younger than 5 minutes whose stored mtime or
current mtime is missing is still treated as valid and served; the mtime
comparison invalidates only when both mtimes are present and differ. -/
theorem is_cache_valid_lenient :
    (∀ (entry : CachedProbeResult) (mt : Option Nat) (now : ℚ),
      now - entry.cached_at ≤ CACHE_MAX_AGE →
      (entry.file_mtime = none ∨ mt = none) →
      is_cache_valid entry mt now = true) ∧
    (∀ (cache : ProbeCache) (path : String) (entry : CachedProbeResult)
        (mt : Option Nat) (now : ℚ) (rf : Except String String)
        (pj : String → Except String String),
      (cache : List (String × CachedProbeResult)).lookup path = some entry →
      now - entry.cached_at ≤ CACHE_MAX_AGE →
      (entry.file_mtime = none ∨ mt = none) →
      (get_probe_data cache path mt now rf pj).1
        = .ok (entry.json_data, entry.parsed, true)) ∧
    (∀ (entry : CachedProbeResult) (mt : Option Nat) (now : ℚ),
      now - entry.cached_at ≤ CACHE_MAX_AGE →
      is_cache_valid entry mt now = false →
      ∃ a b, entry.file_mtime = some a ∧ mt = some b ∧ a ≠ b) := by
  have hvalid : ∀ (entry : CachedProbeResult) (mt : Option Nat) (now : ℚ),
      now - entry.cached_at ≤ CACHE_MAX_AGE →
      (entry.file_mtime = none ∨ mt = none) →
      is_cache_valid entry mt now = true := by
    intro entry mt now hage hnone
    rw [is_cache_valid, if_neg (not_lt.mpr hage)]
    rcases hnone with hn | hn
    · rw [hn]; rfl
    · rw [hn]
      cases entry.file_mtime <;> rfl
  refine ⟨hvalid, ?_, ?_⟩
  · intro cache path entry mt now rf pj hlk hage hnone
    simp only [get_probe_data, hlk, if_pos (hvalid entry mt now hage hnone)]
  · intro entry mt now hage hinv
    rw [is_cache_valid, if_neg (not_lt.mpr hage)] at hinv
    cases ha : entry.file_mtime with
    | none => rw [ha] at hinv; exact absurd hinv (by simp [mtime_matches])
    | some a =>
      cases hb : mt with
      | none => rw [ha, hb] at hinv; exact absurd hinv (by simp [mtime_matches])
      | some b =>
        rw [ha, hb] at hinv
        by_cases hab : a = b
        · rw [mtime_matches, if_neg (not_not.mpr hab)] at hinv
          exact absurd hinv (by simp)
        · exact ⟨a, b, rfl, rfl, hab⟩

/-- Witness for C10: a young entry (age 100 s) with an unreadable current
mtime is served from the cache. -/
theorem is_cache_valid_lenient_witness :
    (get_probe_data [("f", ⟨"j", "p", some 5, 0⟩)] "f" none 100
        (.error "unused") (fun _ => .error "unused")).1
      = .ok ((CachedProbeResult.mk "j" "p" (some 5) 0).json_data,
          (CachedProbeResult.mk "j" "p" (some 5) 0).parsed, true) :=
  is_cache_valid_lenient.2.1 [("f", ⟨"j", "p", some 5, 0⟩)] "f"
    ⟨"j", "p", some 5, 0⟩ none 100 (.error "unused")
    (fun _ => .error "unused")
    (by simp [List.lookup]) (by norm_num [CACHE_MAX_AGE]) (Or.inr rfl)

/-! ## JobQueue (src/jobs.rs)

File paths and file hashes are opaque keys, modelled as `Nat`. A `QJob`
carries the fields of `Job` that the claims touch (`path`, `id`, the
`cancelled` flag); the `running` DashMap is an association list keyed by
`path` (`runningLookup` / `runningInsert`), the `queued` VecDeque a list,
`max_parallel` a `Nat`. The interleaving of the single global queue's
operations is modelled as a sequence of atomic operations (`QOp`). -/

structure QJob where
  path : Nat
  id : Nat
  cancelled : Bool
deriving DecidableEq, Repr

structure QState where
  queued : List QJob
  running : List QJob
  maxParallel : Nat
deriving DecidableEq, Repr

/-- `JOB_QUEUE` at process start: empty, with the given `max_parallel`
(default 4, jobs.rs 141). -/
def initState (m : Nat) : QState := ⟨[], [], m⟩

/-- `running.get(path)` on the DashMap. -/
def runningLookup (running : List QJob) (p : Nat) : Option QJob :=
  running.find? fun j => j.path = p

/-- `running.insert(path, job)` on the DashMap: replaces any entry with the
same key. -/
def runningInsert (running : List QJob) (j : QJob) : List QJob :=
  (running.filter fun k => k.path ≠ j.path) ++ [j]

/-- `running_count` (jobs.rs 126-128): running entries whose cancelled flag
is NOT set. -/
def running_count (running : List QJob) : Nat :=
  (running.filter fun j => !j.cancelled).length

inductive JobStartResult where
  | Started (id : Nat)
  | Queued (id : Nat)
  | AlreadyExists (id : Nat)
deriving DecidableEq, Repr

/-- `enqueue_job` (jobs.rs 156-249): rejects a duplicate path, otherwise
starts the job immediately when `running_count < max_parallel` and queues
it at the back otherwise. -/
def enqueue_job (s : QState) (path file_hash : Nat) :
    JobStartResult × QState :=
  match runningLookup s.running path with
  | some existing => (.AlreadyExists existing.id, s)
  | none =>
    match s.queued.find? fun j => j.path = path with
    | some existing => (.AlreadyExists existing.id, s)
    | none =>
      let job : QJob := ⟨path, file_hash, false⟩
      if running_count s.running < s.maxParallel then
        (.Started file_hash, { s with running := runningInsert s.running job })
      else
        (.Queued file_hash, { s with queued := s.queued ++ [job] })

/-- The `while` loop of `try_start_next_job` (jobs.rs 262-284): promote
queued jobs from the front while non-cancelled running jobs are below the
limit. -/
def promoteLoop (max : Nat) : List QJob → List QJob → List QJob × List QJob
  | [], running => ([], running)
  | j :: rest, running =>
    if running_count running < max then
      promoteLoop max rest (runningInsert running j)
    else (j :: rest, running)

/-- `try_start_next_job` (jobs.rs 253-285). -/
def try_start_next_job (s : QState) : QState :=
  let qr := promoteLoop s.maxParallel s.queued s.running
  { s with queued := qr.1, running := qr.2 }

/-- `complete_job` (jobs.rs 288-310): remove from `running`, then try to
start the next queued job. -/
def complete_job (s : QState) (path : Nat) : QState :=
  try_start_next_job { s with running := s.running.filter fun j => j.path ≠ path }

/-- `cancel_job` (jobs.rs 313-343): a running job has its flag set (the
entry stays in the map); a queued job is removed in place; otherwise
`false`. -/
def cancel_job (s : QState) (path : Nat) : Bool × QState :=
  match runningLookup s.running path with
  | some _ =>
    (true, { s with running := s.running.map fun j =>
      if j.path = path then { j with cancelled := true } else j })
  | none =>
    if s.queued.any fun j => j.path = path then
      (true, { s with queued := s.queued.eraseP fun j => j.path = path })
    else (false, s)

/-- `cancel_all_jobs` (jobs.rs 346-377). -/
def cancel_all_jobs (s : QState) : QState :=
  { s with running := s.running.map fun j => { j with cancelled := true },
           queued := [] }

/-- `set_max_parallel_jobs` (jobs.rs 429-442): clamp to `[1, 8]`; on an
increase, try to start queued jobs. -/
def set_max_parallel_jobs (s : QState) (count : Nat) : QState :=
  let clamped := min (max count 1) 8
  let s' := { s with maxParallel := clamped }
  if s.maxParallel < clamped then try_start_next_job s' else s'

/-- The observable part of `get_queue_status` (jobs.rs 380-426): queued
paths, paths of non-cancelled running entries, and the limit. -/
structure QueueStatus where
  queued : List Nat
  running : List Nat
  max_parallel : Nat
deriving DecidableEq, Repr

def get_queue_status (s : QState) : QueueStatus :=
  { queued := s.queued.map (·.path)
    running := (s.running.filter fun j => !j.cancelled).map (·.path)
    max_parallel := s.maxParallel }

inductive QOp where
  | enqueue (path file_hash : Nat)
  | complete (path : Nat)
  | cancel (path : Nat)
  | setMaxParallel (n : Nat)
  | cancelAll
deriving DecidableEq, Repr

def applyOp (s : QState) : QOp → QState
  | .enqueue p h => (enqueue_job s p h).2
  | .complete p => complete_job s p
  | .cancel p => (cancel_job s p).2
  | .setMaxParallel n => set_max_parallel_jobs s n
  | .cancelAll => cancel_all_jobs s

def applyOps (s : QState) (ops : List QOp) : QState := ops.foldl applyOp s

/-- The operations of the claimed invariant that do not change
`max_parallel`. -/
def isBasicOp : QOp → Bool
  | .setMaxParallel _ => false
  | _ => true

/-! ### Counting lemmas for the queue invariant -/

theorem running_count_filter_le (r : List QJob) (p : QJob → Bool) :
    running_count (r.filter p) ≤ running_count r :=
  ((List.filter_sublist r).filter _).length_le

theorem running_count_insert_le (r : List QJob) (j : QJob) :
    running_count (runningInsert r j) ≤ running_count r + 1 := by
  rw [runningInsert, running_count, List.filter_append, List.length_append]
  have h1 : (((r.filter fun k => k.path ≠ j.path).filter
      fun j => !j.cancelled)).length ≤ running_count r :=
    running_count_filter_le r _
  have h2 : (([j].filter fun j => !j.cancelled)).length ≤ 1 := by
    cases hc : j.cancelled <;> simp [hc]
  omega

theorem running_count_cancel_le (r : List QJob) (p : Nat) :
    running_count (r.map fun j =>
      if j.path = p then { j with cancelled := true } else j)
      ≤ running_count r := by
  induction r with
  | nil => exact Nat.le_refl _
  | cons j rest ih =>
    rw [List.map_cons, running_count, running_count, List.filter_cons,
      List.filter_cons]
    rw [running_count, running_count] at ih
    by_cases hp : j.path = p
    · simp only [if_pos hp]
      cases hc : j.cancelled <;> simp <;> omega
    · simp only [if_neg hp]
      cases hc : j.cancelled <;> simp [hc] <;> omega

theorem running_count_cancel_all (r : List QJob) :
    running_count (r.map fun j => { j with cancelled := true }) = 0 := by
  induction r with
  | nil => rfl
  | cons j rest ih =>
    rw [List.map_cons, running_count, List.filter_cons]
    simp [ih]

theorem promoteLoop_count_le (max : Nat) :
    ∀ (q r : List QJob), running_count r ≤ max →
      running_count (promoteLoop max q r).2 ≤ max := by
  intro q
  induction q with
  | nil => intro r h; simpa [promoteLoop] using h
  | cons j rest ih =>
    intro r h
    rw [promoteLoop]
    by_cases hc : running_count r < max
    · rw [if_pos hc]
      exact ih _ (Nat.le_trans (running_count_insert_le r j) hc)
    · rw [if_neg hc]
      exact h

theorem applyOp_basic_inv (s : QState) (op : QOp) (hb : isBasicOp op = true)
    (h : running_count s.running ≤ s.maxParallel) :
    running_count (applyOp s op).running ≤ (applyOp s op).maxParallel ∧
    (applyOp s op).maxParallel = s.maxParallel := by
  cases op with
  | enqueue p hsh =>
    simp only [applyOp, enqueue_job]
    cases hlk : runningLookup s.running p with
    | some e => exact ⟨h, rfl⟩
    | none =>
      cases hq : s.queued.find? fun j => j.path = p with
      | some e => exact ⟨h, rfl⟩
      | none =>
        by_cases hc : running_count s.running < s.maxParallel
        · rw [if_pos hc]
          refine ⟨?_, rfl⟩
          have := running_count_insert_le s.running ⟨p, hsh, false⟩
          have hle : running_count (runningInsert s.running ⟨p, hsh, false⟩)
              ≤ s.maxParallel := by omega
          exact hle
        · rw [if_neg hc]
          exact ⟨h, rfl⟩
  | complete p =>
    refine ⟨?_, rfl⟩
    exact promoteLoop_count_le s.maxParallel s.queued _
      (Nat.le_trans (running_count_filter_le s.running _) h)
  | cancel p =>
    simp only [applyOp, cancel_job]
    cases hlk : runningLookup s.running p with
    | some e => exact ⟨Nat.le_trans (running_count_cancel_le s.running p) h, rfl⟩
    | none =>
      by_cases hq : s.queued.any fun j => j.path = p
      · rw [if_pos hq]; exact ⟨h, rfl⟩
      · rw [if_neg hq]; exact ⟨h, rfl⟩
  | setMaxParallel n => simp [isBasicOp] at hb
  | cancelAll =>
    refine ⟨?_, rfl⟩
    show running_count (s.running.map fun j => { j with cancelled := true })
      ≤ s.maxParallel
    rw [running_count_cancel_all]
    exact Nat.zero_le _

theorem applyOps_basic_inv (ops : List QOp) :
    ∀ s : QState, (∀ op ∈ ops, isBasicOp op = true) →
      running_count s.running ≤ s.maxParallel →
      running_count (applyOps s ops).running ≤ (applyOps s ops).maxParallel := by
  induction ops with
  | nil => intro s _ h; simpa [applyOps] using h
  | cons op rest ih =>
    intro s hb h
    have h1 := applyOp_basic_inv s op (hb op (List.mem_cons_self op rest)) h
    exact ih (applyOp s op) (fun o ho => hb o (List.mem_cons_of_mem op ho)) h1.1

theorem runningInsert_length_of_absent {r : List QJob} {p : Nat}
    (hlk : runningLookup r p = none) (j : QJob) (hj : j.path = p) :
    (runningInsert r j).length = r.length + 1 := by
  have habs : ∀ k ∈ r, ¬(k.path = p) := by
    intro k hk
    have := List.find?_eq_none.mp hlk k hk
    simpa using this
  rw [runningInsert, List.length_append]
  have : r.filter (fun k => k.path ≠ j.path) = r :=
    List.filter_eq_self.mpr fun k hk => by
      simpa [hj] using habs k hk
  rw [this]
  rfl

/-- **C1** (amended queue safety and back-pressure): for every sequence of
`enqueue_job` / `complete_job` / `cancel_job` operations — with
`max_parallel` held fixed, i.e. no `set_max_parallel_jobs` in the sequence —
the number of running jobs in every observed snapshot is at most
`max_parallel`; and with `max_parallel = 2`, enqueueing jobs on distinct
paths 1, 2, 3, 4 yields Started, Started, Queued, Queued, and completing
job 1 promotes job 3 (the first queued job, in FIFO order) to running. -/
theorem queue_safety_and_backpressure :
    (∀ (m : Nat) (ops : List QOp), (∀ op ∈ ops, isBasicOp op = true) →
      ((get_queue_status (applyOps (initState m) ops)).running).length
        ≤ (get_queue_status (applyOps (initState m) ops)).max_parallel) ∧
    ((enqueue_job (initState 2) 1 101).1 = .Started 101 ∧
     (enqueue_job (enqueue_job (initState 2) 1 101).2 2 102).1
       = .Started 102 ∧
     (enqueue_job (enqueue_job (enqueue_job (initState 2) 1 101).2
        2 102).2 3 103).1 = .Queued 103 ∧
     (enqueue_job (enqueue_job (enqueue_job (enqueue_job (initState 2)
        1 101).2 2 102).2 3 103).2 4 104).1 = .Queued 104 ∧
     get_queue_status (complete_job (enqueue_job (enqueue_job (enqueue_job
        (enqueue_job (initState 2) 1 101).2 2 102).2 3 103).2 4 104).2 1)
       = ⟨[4], [2, 3], 2⟩) := by
  constructor
  · intro m ops hb
    have hlen : ((get_queue_status (applyOps (initState m) ops)).running).length
        = running_count (applyOps (initState m) ops).running := by
      simp [get_queue_status, running_count]
    rw [hlen]
    exact applyOps_basic_inv ops (initState m) hb
      (by simp [initState, running_count])
  · decide

/-- Counterexample to C1 as stated: with `set_max_parallel_jobs` allowed in
the sequence, starting two jobs at the default limit 4 and then lowering
the limit to 1 leaves a snapshot with 2 running jobs and
`max_parallel = 1`. -/
theorem queue_safety_setmax_cex :
    ¬(((get_queue_status (applyOps (initState 4)
          [.enqueue 1 101, .enqueue 2 102, .setMaxParallel 1])).running).length
        ≤ (get_queue_status (applyOps (initState 4)
          [.enqueue 1 101, .enqueue 2 102, .setMaxParallel 1])).max_parallel) := by
  decide

/-- Witness for C1 (amended): the invariant evaluated on the concrete
back-pressure sequence. -/
theorem queue_safety_and_backpressure_witness :
    ((get_queue_status (applyOps (initState 2)
        [.enqueue 1 101, .enqueue 2 102, .enqueue 3 103,
         .complete 1])).running).length
      ≤ (get_queue_status (applyOps (initState 2)
        [.enqueue 1 101, .enqueue 2 102, .enqueue 3 103,
         .complete 1])).max_parallel :=
  queue_safety_and_backpressure.1 2
    [.enqueue 1 101, .enqueue 2 102, .enqueue 3 103, .complete 1]
    (by decide)

/-- **C9**: a cancelled running job is excluded from the admission count —
`enqueue_job` may start a new job while the cancelled entry is still in the
running map; `get_queue_status` omits cancelled entries from its running
list; and the raw number of entries in the running map can exceed
`max_parallel` (demonstrated at `max_parallel = 1`). -/
theorem cancelled_jobs_excluded_from_admission :
    (∀ (s : QState) (p h : Nat),
      runningLookup s.running p = none →
      (s.queued.find? fun j => j.path = p) = none →
      running_count s.running < s.maxParallel →
      (enqueue_job s p h).1 = .Started h ∧
      ((enqueue_job s p h).2).running.length = s.running.length + 1) ∧
    (∀ (s : QState) (q : Nat), q ∈ (get_queue_status s).running →
      ∃ j ∈ s.running, j.path = q ∧ j.cancelled = false) ∧
    ((cancel_job (enqueue_job (initState 1) 1 101).2 1).1 = true ∧
     (enqueue_job (cancel_job (enqueue_job (initState 1) 1 101).2 1).2
        2 102).1 = .Started 102 ∧
     ((enqueue_job (cancel_job (enqueue_job (initState 1) 1 101).2 1).2
        2 102).2).running.length = 2 ∧
     ((enqueue_job (cancel_job (enqueue_job (initState 1) 1 101).2 1).2
        2 102).2).maxParallel = 1 ∧
     (∃ j ∈ ((enqueue_job (cancel_job (enqueue_job (initState 1) 1 101).2
        1).2 2 102).2).running, j.cancelled = true) ∧
     (get_queue_status ((enqueue_job (cancel_job (enqueue_job (initState 1)
        1 101).2 1).2 2 102).2)).running = [2]) := by
  refine ⟨?_, ?_, by decide⟩
  · intro s p h hlk hq hc
    rw [enqueue_job, hlk, hq, if_pos hc]
    exact ⟨rfl, runningInsert_length_of_absent hlk ⟨p, h, false⟩ rfl⟩
  · intro s q hq
    rw [get_queue_status] at hq
    simp only [List.mem_map] at hq
    obtain ⟨j, hj, rfl⟩ := hq
    rw [List.mem_filter] at hj
    refine ⟨j, hj.1, rfl, ?_⟩
    simpa using hj.2

/-- Witness for C9: the admission rule applied to a state whose single
running entry is cancelled (`max_parallel = 1`): a second path still
starts, and the raw map then holds 2 entries. -/
theorem cancelled_jobs_excluded_from_admission_witness :
    (enqueue_job (QState.mk [] [⟨1, 101, true⟩] 1) 2 102).1 = .Started 102 ∧
    ((enqueue_job (QState.mk [] [⟨1, 101, true⟩] 1) 2 102).2).running.length
      = (QState.mk [] [⟨1, 101, true⟩] 1).running.length + 1 :=
  cancelled_jobs_excluded_from_admission.1 (QState.mk [] [⟨1, 101, true⟩] 1)
    2 102 (by decide) (by decide) (by decide)

/-! ## ContentHasher (`compute_file_hash`, src/bitrate/cache.rs lines 65-103)

The filesystem enters as a record of fallible operations (`FileOps`) and
the SHA-256-and-lowercase-hex-encode routine of the `sha2` crate as the
oracle `sha256hex : List Nat → String` over byte lists. `stat` yields the
file size and the `modified()` time; a `modified()` failure is modelled as
`none`, which the source maps to `0` via `unwrap_or(0)` rather than
failing. -/

structure FileOps where
  stat : Except String (Nat × Option Nat)
  openFile : Except String Unit
  readFirst : Nat → Except String (List Nat)
  seekEnd : Int → Except String Unit
  readLast : Nat → Except String (List Nat)

/-- `u64::to_le_bytes`: the eight little-endian bytes of a 64-bit value. -/
def leBytes8 (n : Nat) : List Nat :=
  (List.range 8).map fun i => (n % 2 ^ 64) / 256 ^ i % 256

/-- The tail read of `compute_file_hash` (cache.rs 85-92): seek to 8 KiB
before the end and read 8 KiB, only when `file_size > 16384`; otherwise
`last_bytes` stays empty. -/
def readTail (f : FileOps) (file_size : Nat) : Except String (List Nat) :=
  if file_size > 16384 then
    match f.seekEnd (-8192) with
    | .error e => .error ("Failed to seek: " ++ e)
    | .ok _ =>
      match f.readLast 8192 with
      | .error e => .error ("Failed to read last bytes: " ++ e)
      | .ok lb => .ok lb
  else .ok []

/-- `compute_file_hash` (cache.rs 65-103): stat, open, read the first
`min(8 KiB, size)` bytes, read the last 8 KiB iff `size > 16 KiB`, and hash
`size_le_bytes ∥ mtime_le_bytes ∥ head ∥ tail`. -/
def compute_file_hash (sha256hex : List Nat → String) (f : FileOps) :
    Except String String :=
  match f.stat with
  | .error e => .error ("Failed to get metadata: " ++ e)
  | .ok (file_size, mtimeOpt) =>
    let mtime := mtimeOpt.getD 0
    match f.openFile with
    | .error e => .error ("Failed to open file: " ++ e)
    | .ok _ =>
      match f.readFirst (min 8192 file_size) with
      | .error e => .error ("Failed to read first bytes: " ++ e)
      | .ok first_bytes =>
        match readTail f file_size with
        | .error e => .error e
        | .ok last_bytes =>
          .ok (sha256hex
            (leBytes8 file_size ++ leBytes8 mtime ++ first_bytes ++ last_bytes))

/-- **C8** (content hash): `compute_file_hash` returns the hex digest (the
`sha256hex` oracle) of `size_le_bytes ∥ mtime_le_bytes ∥ head ∥ tail`,
where the head is the first `min(8 KiB, size)` bytes and the tail is the
last 8 KiB, included exactly when `size > 16 KiB`; the result is
deterministic for a fixed `(size, mtime, head, tail)` tuple; and the
function returns an error whenever the stat, the open, the seek, or either
read fails. -/
theorem compute_file_hash_contract :
    (∀ (sha : List Nat → String) (f : FileOps) (size : Nat)
        (mt : Option Nat) (first : List Nat),
      f.stat = .ok (size, mt) → f.openFile = .ok () →
      f.readFirst (min 8192 size) = .ok first →
      (size ≤ 16384 →
        compute_file_hash sha f
          = .ok (sha (leBytes8 size ++ leBytes8 (mt.getD 0) ++ first ++ []))) ∧
      (∀ last : List Nat, 16384 < size → f.seekEnd (-8192) = .ok () →
        f.readLast 8192 = .ok last →
        compute_file_hash sha f
          = .ok (sha (leBytes8 size ++ leBytes8 (mt.getD 0) ++ first ++ last)))) ∧
    (∀ (sha : List Nat → String) (f g : FileOps) (size : Nat)
        (mtf mtg : Option Nat) (first last : List Nat),
      f.stat = .ok (size, mtf) → g.stat = .ok (size, mtg) →
      mtf.getD 0 = mtg.getD 0 →
      f.openFile = .ok () → g.openFile = .ok () →
      f.readFirst (min 8192 size) = .ok first →
      g.readFirst (min 8192 size) = .ok first →
      readTail f size = .ok last → readTail g size = .ok last →
      compute_file_hash sha f = compute_file_hash sha g) ∧
    (∀ (sha : List Nat → String) (f : FileOps),
      ((∃ e, f.stat = .error e) →
        ∃ msg, compute_file_hash sha f = .error msg) ∧
      (∀ size mt, f.stat = .ok (size, mt) →
        ((∃ e, f.openFile = .error e) →
          ∃ msg, compute_file_hash sha f = .error msg) ∧
        (f.openFile = .ok () →
          ((∃ e, f.readFirst (min 8192 size) = .error e) →
            ∃ msg, compute_file_hash sha f = .error msg) ∧
          (∀ first, f.readFirst (min 8192 size) = .ok first →
            16384 < size →
            ((∃ e, f.seekEnd (-8192) = .error e) →
              ∃ msg, compute_file_hash sha f = .error msg) ∧
            (f.seekEnd (-8192) = .ok () →
              (∃ e, f.readLast 8192 = .error e) →
              ∃ msg, compute_file_hash sha f = .error msg))))) := by
  refine ⟨?_, ?_, ?_⟩
  · intro sha f size mt first hstat hopen hread
    constructor
    · intro hsmall
      have htail : readTail f size = .ok [] := by
        rw [readTail, if_neg (by omega)]
      simp [compute_file_hash, hstat, hopen, hread, htail]
    · intro last hlarge hseek hlast
      have htail : readTail f size = .ok last := by
        rw [readTail, if_pos hlarge, hseek, hlast]
      simp [compute_file_hash, hstat, hopen, hread, htail]
  · intro sha f g size mtf mtg first last hfs hgs hmt hfo hgo hfr hgr hft hgt
    simp [compute_file_hash, hfs, hgs, hfo, hgo, hfr, hgr, hft, hgt, hmt]
  · intro sha f
    refine ⟨?_, ?_⟩
    · intro ⟨e, he⟩
      exact ⟨"Failed to get metadata: " ++ e, by simp [compute_file_hash, he]⟩
    · intro size mt hstat
      refine ⟨?_, ?_⟩
      · intro ⟨e, he⟩
        exact ⟨"Failed to open file: " ++ e,
          by simp [compute_file_hash, hstat, he]⟩
      · intro hopen
        refine ⟨?_, ?_⟩
        · intro ⟨e, he⟩
          exact ⟨"Failed to read first bytes: " ++ e,
            by simp [compute_file_hash, hstat, hopen, he]⟩
        · intro first hread hlarge
          refine ⟨?_, ?_⟩
          · intro ⟨e, he⟩
            refine ⟨"Failed to seek: " ++ e, ?_⟩
            have htail : readTail f size = .error ("Failed to seek: " ++ e) := by
              rw [readTail, if_pos hlarge, he]
            simp [compute_file_hash, hstat, hopen, hread, htail]
          · intro hseek ⟨e, he⟩
            refine ⟨"Failed to read last bytes: " ++ e, ?_⟩
            have htail : readTail f size
                = .error ("Failed to read last bytes: " ++ e) := by
              rw [readTail, if_pos hlarge, hseek, he]
            simp [compute_file_hash, hstat, hopen, hread, htail]

/-- Witness for C8: the success shape on a concrete small file
(size 100: head is the first 100 bytes, no tail). -/
theorem compute_file_hash_contract_witness :
    compute_file_hash (fun _ => "deadbeef")
      (FileOps.mk (.ok (100, some 7)) (.ok ())
        (fun n => .ok (List.replicate n 0)) (fun _ => .ok ())
        (fun n => .ok (List.replicate n 1)))
      = .ok ((fun (_ : List Nat) => "deadbeef")
          (leBytes8 100 ++ leBytes8 ((some 7).getD 0)
            ++ List.replicate (min 8192 100) 0 ++ [])) :=
  ((compute_file_hash_contract.1 (fun _ => "deadbeef")
    (FileOps.mk (.ok (100, some 7)) (.ok ())
      (fun n => .ok (List.replicate n 0)) (fun _ => .ok ())
      (fun n => .ok (List.replicate n 1)))
    100 (some 7) (List.replicate (min 8192 100) 0)
    rfl rfl rfl).1 (by omega))

end Seer
